import Mathlib

/-
Verification development for the SnowTransfer client library.

Embedded directly from the repository sources:
  - src/index.js        (the public entry point, claim C9)
  - src/index.d.ts and the module declaration fragment (constructor options,
    claim C10)

The dispatcher core (route key resolver, bucket scheduler, global lock, retry
coordinator) is required from ./src/SnowTransfer and its helpers, which are
not present under src/; those components are modelled from the specification,
as marked on each definition.
-/

/-! ## Route key resolver -/

/-- Modelled from the spec: a path segment is either a literal name or an
identifier-like (numeric snowflake) segment; the resolver (part of the request
handler, not present under src/) classifies segments this way. -/
inductive PathSeg
  | name (s : String)
  | snowflake (n : Nat)
  deriving DecidableEq, Repr

/-- Modelled from the spec: the fixed allow-list of major resource scopes
(channel, guild, webhook). -/
def majorScopes : List String := ["channels", "guilds", "webhooks"]

/-- Modelled from the spec: the generic placeholder substituted for minor
identifiers. -/
def placeholderSeg : PathSeg := .name ":id"

/-- Modelled from the spec: path normalization walks the segments tracking
whether the previous segment is a major scope name; an identifier immediately
following a major scope is retained verbatim, every other identifier is
replaced by the placeholder. -/
def normAux (prevMajor : Bool) : List PathSeg → List PathSeg
  | [] => []
  | .name s :: rest => .name s :: normAux (majorScopes.contains s) rest
  | .snowflake n :: rest =>
      (if prevMajor then .snowflake n else placeholderSeg) :: normAux false rest

/-- Modelled from the spec: `resolve(httpMethod, path) -> BucketKey`; the key
pairs the method with the normalized path. -/
def RouteResolver.resolve (httpMethod : String) (path : List PathSeg) :
    String × List PathSeg :=
  (httpMethod, normAux false path)

/-- The major-scope flag that normalization carries after consuming a list of
segments. -/
def flagAfter (prevMajor : Bool) : List PathSeg → Bool
  | [] => prevMajor
  | .name s :: rest => flagAfter (majorScopes.contains s) rest
  | .snowflake _ :: rest => flagAfter false rest

/-- Two paths differ at most in minor identifiers: same shape and literal
segments, identical identifiers in major position, arbitrary identifiers in
minor position.  The Bool index is the major-scope flag carried by
normalization. -/
inductive MinorOnlyDiff : Bool → List PathSeg → List PathSeg → Prop
  | nil (pm : Bool) : MinorOnlyDiff pm [] []
  | name (pm pm' : Bool) (s : String) (r₁ r₂ : List PathSeg) :
      majorScopes.contains s = pm' → MinorOnlyDiff pm' r₁ r₂ →
      MinorOnlyDiff pm (.name s :: r₁) (.name s :: r₂)
  | majorId (n : Nat) (r₁ r₂ : List PathSeg) : MinorOnlyDiff false r₁ r₂ →
      MinorOnlyDiff true (.snowflake n :: r₁) (.snowflake n :: r₂)
  | minorId (m n : Nat) (r₁ r₂ : List PathSeg) : MinorOnlyDiff false r₁ r₂ →
      MinorOnlyDiff false (.snowflake m :: r₁) (.snowflake n :: r₂)

/-! ## Public entry point (src/index.js) -/

/-- Embedded from src/index.js: `createSnowTransfer(...args)` forwards all
arguments to `new SnowTransfer(...args)`.  The `SnowTransfer` class itself is
required from ./src/SnowTransfer (not under src/), so it is represented
abstractly as a function from the argument list to the constructed
instance. -/
def createSnowTransfer {Arg Inst : Type} (snowTransferCtor : List Arg → Inst)
    (args : List Arg) : Inst :=
  snowTransferCtor args

/-- Embedded from src/index.js: the module export is the factory function
together with the class attached as its `SnowTransfer` property. -/
structure ModuleExport (Arg Inst : Type) where
  call : List Arg → Inst
  snowTransferProp : List Arg → Inst

/-- Embedded from src/index.js: `module.exports = createSnowTransfer` with
`createSnowTransfer.SnowTransfer = Snowtransfer`. -/
def moduleExport {Arg Inst : Type} (snowTransferCtor : List Arg → Inst) :
    ModuleExport Arg Inst :=
  { call := fun args => createSnowTransfer snowTransferCtor args
  , snowTransferProp := snowTransferCtor }

/-! ## Constructor options (src/index.d.ts, declaration fragment) -/

/-- Embedded from src/index.d.ts and the module declaration fragment: the
options object accepted by the `SnowTransfer` constructor; every field is
optional, as is the whole object. -/
structure SnowTransferOptions where
  sentryDsn : Option String
  sentryOptions : Option String
  baseHost : Option String
  deriving DecidableEq, Repr

/-- Modelled from the spec: the documented default for `options.baseHost` in
src/index.d.ts (the constructor body in ./src/SnowTransfer is not under
src/). -/
def defaultBaseHost : String := "https://discordapp.com"

/-- The client configuration determined by the constructor arguments. -/
structure ClientConfig where
  token : String
  baseHost : String
  deriving DecidableEq, Repr

/-- Modelled from the spec: `new SnowTransfer(token, options?)`; the options
argument may be omitted entirely, and a missing `baseHost` falls back to the
documented default. -/
def mkSnowTransfer (token : String) (options : Option SnowTransferOptions) :
    ClientConfig :=
  { token := token
  , baseHost := (options.bind (fun o => o.baseHost)).getD defaultBaseHost }

/-! ## Dispatcher data model (modelled from the spec) -/

/-- Request identifier. -/
abbrev ReqId := Nat

/-- Modelled from the spec: bucket keys are opaque identities. -/
abbrev BucketKey := String

/-- Modelled from the spec: the error taxonomy of the dispatcher. -/
inductive ErrKind
  | network
  | server
  | client
  | rateLimitExceeded
  | timedOut
  | malformed
  deriving DecidableEq, Repr

/-- Modelled from the spec: a result handle settles via exactly one of a
success value, a typed failure, or a cancellation acknowledgment. -/
inductive Outcome
  | success (v : Nat)
  | failure (e : ErrKind)
  | cancelled
  deriving DecidableEq, Repr

/-- Modelled from the spec: a pending request carries its descriptor identity,
an internal retry counter and a deadline. -/
structure PendingRequest where
  id : ReqId
  retryCount : Nat
  deadline : Nat
  deriving DecidableEq, Repr

/-- Modelled from the spec: a transport result is either an HTTP response
(status, rate-limit headers, global flag, wait duration, parse result) or a
transport-level network failure. -/
inductive TransportResult
  | http (status limitH remainingH resetAtH : Nat) (globalFlag : Bool)
      (retryAfter : Nat) (parseOk : Bool) (payload : Nat)
  | netError
  deriving DecidableEq, Repr

/-- Modelled from the spec: per-bucket rate-limit state with its FIFO queue,
the set of requests currently in flight, and ghost logs recording submission
order, dispatch order and settlements. -/
structure BucketState where
  limit : Option Nat
  remaining : Nat
  resetAt : Nat
  queue : List PendingRequest
  inFlight : List PendingRequest
  subLog : List ReqId
  dispLog : List ReqId
  settleLog : List (ReqId × Outcome)
  deriving DecidableEq, Repr

/-- Modelled from the spec: a bucket created on first use has unknown limit. -/
def freshBucket : BucketState :=
  { limit := none, remaining := 1, resetAt := 0, queue := [], inFlight := []
  , subLog := [], dispLog := [], settleLog := [] }

/-- Modelled from the spec: whole-system state — the bucket store, the global
lock and the current time. -/
structure SysState where
  time : Nat
  buckets : List (BucketKey × BucketState)
  globalUnlockAt : Nat
  deriving DecidableEq, Repr

/-- The initial dispatcher state: no buckets, global lock clear. -/
def initState : SysState := { time := 0, buckets := [], globalUnlockAt := 0 }

/-- Association-list lookup in the bucket store. -/
def getBucket (k : BucketKey) : List (BucketKey × BucketState) → Option BucketState
  | [] => none
  | (k', b) :: rest => if k' = k then some b else getBucket k rest

/-- Association-list update (insert at the tail on first use). -/
def setBucket (k : BucketKey) (b : BucketState) :
    List (BucketKey × BucketState) → List (BucketKey × BucketState)
  | [] => [(k, b)]
  | (k', b') :: rest =>
      if k' = k then (k, b) :: rest else (k', b') :: setBucket k b rest

/-! ## Retry coordinator (modelled from the spec) -/

/-- Modelled from the spec: the retry coordinator's decision. -/
inductive Decision
  | retry (after : Nat)
  | fail (e : ErrKind)
  | succeed (v : Nat)
  deriving DecidableEq, Repr

/-- Modelled from the spec: exponential backoff for server/network retries. -/
def backoff (retryCount : Nat) : Nat := 2 ^ retryCount * 1000

/-- Modelled from the spec: `decide(PendingRequest, response_or_error)`.
Throttling (429) retries up to the configurable max attempt count, otherwise
RateLimitExceeded; 5xx and network failures retry with exponential backoff up
to the cap, otherwise the last error; other 4xx fail immediately; successful
responses succeed when parseable and fail as malformed otherwise. -/
def RetryCoordinator.decide (maxRetries : Nat) (r : PendingRequest) :
    TransportResult → Decision
  | .netError =>
      if r.retryCount < maxRetries then .retry (backoff r.retryCount)
      else .fail .network
  | .http status _ _ _ _ retryAfter parseOk payload =>
      if status = 429 then
        if r.retryCount + 1 ≤ maxRetries then .retry retryAfter
        else .fail .rateLimitExceeded
      else if 500 ≤ status then
        if r.retryCount < maxRetries then .retry (backoff r.retryCount)
        else .fail .server
      else if 400 ≤ status then .fail .client
      else if parseOk then .succeed payload
      else .fail .malformed

/-- Whether a transport result is a throttling response flagged global. -/
def isGlobalThrottle : TransportResult → Bool
  | .http status _ _ _ globalFlag _ _ _ => status == 429 && globalFlag
  | .netError => false

/-- The wait duration carried by a throttling response. -/
def retryAfterOf : TransportResult → Nat
  | .http _ _ _ _ _ retryAfter _ _ => retryAfter
  | .netError => 0

/-- Modelled from the spec: authoritative response headers overwrite the
bucket's `limit`, `remaining` and `resetAt`; a network failure carries no
headers and leaves the counters alone. -/
def applyHeaders (b : BucketState) : TransportResult → BucketState
  | .http _ limitH remainingH resetAtH _ _ _ _ =>
      { b with limit := some limitH, remaining := remainingH, resetAt := resetAtH }
  | .netError => b

/-- Remove the (unique) entry with the given id from a request list. -/
def eraseId (i : ReqId) : List PendingRequest → List PendingRequest
  | [] => []
  | r :: rest => if r.id = i then rest else r :: eraseId i rest

/-! ## Dispatcher transition system (modelled from the spec) -/

/-- Transition labels of the dispatcher. -/
inductive Label
  | submit (k : BucketKey) (r : PendingRequest)
  | dispatch (k : BucketKey) (i : ReqId)
  | respond (k : BucketKey) (i : ReqId) (t : TransportResult)
  | cancel (k : BucketKey) (i : ReqId)
  | timeout (k : BucketKey) (i : ReqId)
  | tick (t' : Nat)
  deriving DecidableEq, Repr

/-- Modelled from the spec: submission appends to the tail of the bucket's
queue and submission log, creating the bucket with unknown limit on first
use. -/
def submitState (s : SysState) (k : BucketKey) (r : PendingRequest) : SysState :=
  let b := (getBucket k s.buckets).getD freshBucket
  { s with buckets :=
      (setBucket k
        { b with queue := b.queue ++ [r], subLog := b.subLog ++ [r.id] }
        s.buckets) }

/-- Modelled from the spec: dispatching pops the queue head, moves it in
flight, optimistically decrements `remaining` and records the dispatch. -/
def dispatchState (s : SysState) (k : BucketKey) (b : BucketState)
    (r : PendingRequest) (rest : List PendingRequest) : SysState :=
  { s with buckets :=
      (setBucket k
        { b with queue := rest, inFlight := b.inFlight ++ [r]
               , remaining := b.remaining - 1, dispLog := b.dispLog ++ [r.id] }
        s.buckets) }

/-- Modelled from the spec: the successor state after the transport result `t`
for in-flight request `r` of bucket `k` is handled: headers update the
counters, a global throttle arms the global lock for at least the wait
duration, and the retry coordinator's decision either re-enqueues the request
(retry counter incremented) on the same bucket or settles it. -/
def respondState (maxRetries : Nat) (s : SysState) (k : BucketKey)
    (b : BucketState) (r : PendingRequest) (t : TransportResult) : SysState :=
  let b₁ := applyHeaders { b with inFlight := eraseId r.id b.inFlight } t
  let gU := if isGlobalThrottle t then max s.globalUnlockAt (s.time + retryAfterOf t)
            else s.globalUnlockAt
  match RetryCoordinator.decide maxRetries r t with
  | .retry _ =>
      { s with
        buckets :=
          (setBucket k
            { b₁ with queue :=
                (b₁.queue ++ [{ r with retryCount := r.retryCount + 1 }]) }
            s.buckets),
        globalUnlockAt := gU }
  | .fail e =>
      { s with
        buckets :=
          (setBucket k
            { b₁ with settleLog := b₁.settleLog ++ [(r.id, Outcome.failure e)] }
            s.buckets),
        globalUnlockAt := gU }
  | .succeed v =>
      { s with
        buckets :=
          (setBucket k
            { b₁ with settleLog := b₁.settleLog ++ [(r.id, Outcome.success v)] }
            s.buckets),
        globalUnlockAt := gU }

/-- Modelled from the spec: cancelling a queued request removes it from the
queue and settles it as Cancelled, with no effect on the bucket counters. -/
def cancelState (s : SysState) (k : BucketKey) (b : BucketState)
    (r : PendingRequest) : SysState :=
  { s with buckets :=
      (setBucket k
        { b with queue := eraseId r.id b.queue
               , settleLog := b.settleLog ++ [(r.id, Outcome.cancelled)] }
        s.buckets) }

/-- Modelled from the spec: a deadline elapsing while queued removes the
request from the queue and settles it as TimedOut, with no effect on the
bucket counters. -/
def timeoutState (s : SysState) (k : BucketKey) (b : BucketState)
    (r : PendingRequest) : SysState :=
  { s with buckets :=
      (setBucket k
        { b with queue := eraseId r.id b.queue
               , settleLog := b.settleLog ++ [(r.id, Outcome.failure .timedOut)] }
        s.buckets) }

/-- All request ids ever submitted, across every bucket. -/
def allSubIds (s : SysState) : List ReqId :=
  (s.buckets.map (fun kb => kb.2.subLog)).flatten

/-- Modelled from the spec: the dispatcher's small-step transition relation.
`submit` appends to the tail of the bucket's queue; `dispatch` pops the head
when the global lock is clear, budget is available (or the reset window has
passed) and — while the limit is unknown — nothing is in flight; `respond`
hands the transport result to the retry coordinator; `cancel` and `timeout`
remove a queued request and settle it; `tick` advances time. -/
inductive Step (maxRetries : Nat) : SysState → Label → SysState → Prop
  | submit (s : SysState) (k : BucketKey) (r : PendingRequest) :
      r.retryCount = 0 →
      r.id ∉ allSubIds s →
      Step maxRetries s (.submit k r) (submitState s k r)
  | dispatch (s : SysState) (k : BucketKey) (b : BucketState)
      (r : PendingRequest) (rest : List PendingRequest) :
      getBucket k s.buckets = some b →
      b.queue = r :: rest →
      s.globalUnlockAt ≤ s.time →
      (0 < b.remaining ∨ b.resetAt ≤ s.time) →
      (b.limit = none → b.inFlight = []) →
      Step maxRetries s (.dispatch k r.id) (dispatchState s k b r rest)
  | respond (s : SysState) (k : BucketKey) (b : BucketState)
      (r : PendingRequest) (t : TransportResult) :
      getBucket k s.buckets = some b →
      r ∈ b.inFlight →
      Step maxRetries s (.respond k r.id t) (respondState maxRetries s k b r t)
  | cancel (s : SysState) (k : BucketKey) (b : BucketState)
      (r : PendingRequest) :
      getBucket k s.buckets = some b →
      r ∈ b.queue →
      Step maxRetries s (.cancel k r.id) (cancelState s k b r)
  | timeout (s : SysState) (k : BucketKey) (b : BucketState)
      (r : PendingRequest) :
      getBucket k s.buckets = some b →
      r ∈ b.queue →
      r.deadline ≤ s.time →
      Step maxRetries s (.timeout k r.id) (timeoutState s k b r)
  | tick (s : SysState) (t' : Nat) :
      s.time ≤ t' →
      Step maxRetries s (.tick t') { s with time := t' }

/-- Finite executions of the dispatcher. -/
inductive Trace (maxRetries : Nat) : SysState → List Label → SysState → Prop
  | refl (s : SysState) : Trace maxRetries s [] s
  | snoc {s₀ s₁ s₂ : SysState} {ls : List Label} {l : Label} :
      Trace maxRetries s₀ ls s₁ → Step maxRetries s₁ l s₂ →
      Trace maxRetries s₀ (ls ++ [l]) s₂

/-- States reachable from the initial dispatcher state. -/
def Reachable (maxRetries : Nat) (s : SysState) : Prop :=
  ∃ ls, Trace maxRetries initState ls s

/-! ## Ghost-log bookkeeping helpers -/

/-- The ids of a request list. -/
def reqIds (l : List PendingRequest) : List ReqId := l.map (fun r => r.id)

/-- Ids currently queued or in flight in a bucket. -/
def pendIds (b : BucketState) : List ReqId := reqIds b.queue ++ reqIds b.inFlight

/-- Ids currently pending or already settled in a bucket. -/
def bucketIds (b : BucketState) : List ReqId :=
  pendIds b ++ b.settleLog.map (fun e => e.1)

/-- Ids of queued requests that have never been dispatched (retry counter
still zero). -/
def freshIds (b : BucketState) : List ReqId :=
  reqIds (b.queue.filter (fun r => r.retryCount == 0))

/-- First occurrences of a list, given the ids already seen. -/
def firstOccAux (seen : List ReqId) : List ReqId → List ReqId
  | [] => []
  | x :: xs =>
      if x ∈ seen then firstOccAux seen xs else x :: firstOccAux (x :: seen) xs

/-- The realized order of first dispatches recorded in a dispatch log. -/
def firstOcc (l : List ReqId) : List ReqId := firstOccAux [] l

/-! ## System invariant -/

/-- Per-bucket invariant relating the queue, the in-flight set and the ghost
logs. -/
structure BucketInv (b : BucketState) : Prop where
  nodupIds : (bucketIds b).Nodup
  idsSub : ∀ i ∈ bucketIds b, i ∈ b.subLog
  dispSub : ∀ i ∈ b.dispLog, i ∈ b.subLog
  freshNotDispatched : ∀ r ∈ b.queue, r.retryCount = 0 → r.id ∉ b.dispLog
  retriedDispatched : ∀ r ∈ b.queue, 0 < r.retryCount → r.id ∈ b.dispLog
  inFlightDispatched : ∀ r ∈ b.inFlight, r.id ∈ b.dispLog
  fifo : (firstOcc b.dispLog ++ freshIds b).Sublist b.subLog
  serialUnknown : b.limit = none → b.inFlight.length ≤ 1

/-- Whole-store invariant: every bucket satisfies its invariant, and the
submission logs of distinct buckets are disjoint. -/
def StoreInv (l : List (BucketKey × BucketState)) : Prop :=
  (∀ k b, getBucket k l = some b → BucketInv b) ∧
  (∀ k₁ k₂ b₁ b₂, k₁ ≠ k₂ → getBucket k₁ l = some b₁ →
      getBucket k₂ l = some b₂ → ∀ i ∈ b₁.subLog, i ∉ b₂.subLog)

/-- Whether an outcome is a success value. -/
def isSuccessOutcome : Outcome → Bool
  | .success _ => true
  | _ => false

/-- Whether an outcome is a typed failure. -/
def isFailureOutcome : Outcome → Bool
  | .failure _ => true
  | _ => false

/-- Whether an outcome is a cancellation acknowledgment. -/
def isCancelledOutcome : Outcome → Bool
  | .cancelled => true
  | _ => false

/-- The outcome a retry-coordinator decision settles with, if any. -/
def settlesOutcome : Decision → Option Outcome
  | .retry _ => none
  | .fail e => some (.failure e)
  | .succeed v => some (.success v)

/-! ## Concrete executions for the claim witnesses -/

/-- A concrete request: id 1, never retried, deadline 0. -/
def req1 : PendingRequest := { id := 1, retryCount := 0, deadline := 0 }

/-- A concrete bucket key. -/
def kA : BucketKey := "GET:channels/10"

/-- The bucket after submitting `req1` to a brand-new bucket. -/
def exBucket1 : BucketState :=
  { limit := none, remaining := 1, resetAt := 0, queue := [req1], inFlight := []
  , subLog := [1], dispLog := [], settleLog := [] }

/-- The system after that submission. -/
def exState1 : SysState :=
  { time := 0, buckets := [(kA, exBucket1)], globalUnlockAt := 0 }

/-- The bucket after additionally dispatching `req1`. -/
def exBucket2 : BucketState :=
  { limit := none, remaining := 0, resetAt := 0, queue := [], inFlight := [req1]
  , subLog := [1], dispLog := [1], settleLog := [] }

/-- The system after submission and dispatch. -/
def exState2 : SysState :=
  { time := 0, buckets := [(kA, exBucket2)], globalUnlockAt := 0 }

/-- An exhausted bucket: no budget left, reset in the future. -/
def exBucket3 : BucketState :=
  { limit := some 5, remaining := 0, resetAt := 10, queue := [req1], inFlight := []
  , subLog := [1], dispLog := [], settleLog := [] }

/-- A system holding the exhausted bucket at time 0. -/
def exState3 : SysState :=
  { time := 0, buckets := [(kA, exBucket3)], globalUnlockAt := 0 }

/-- A bucket with `req1` in flight and a known limit. -/
def exBucket4 : BucketState :=
  { limit := some 5, remaining := 1, resetAt := 0, queue := [], inFlight := [req1]
  , subLog := [1], dispLog := [1], settleLog := [] }

/-- A system holding that bucket at time 0 with the global lock clear. -/
def exState4 : SysState :=
  { time := 0, buckets := [(kA, exBucket4)], globalUnlockAt := 0 }

/-- A successful, parseable response carrying fresh rate-limit headers. -/
def tOK : TransportResult := .http 200 5 4 60 false 0 true 42

/-- A throttling response flagged global with wait duration 7. -/
def t429g : TransportResult := .http 429 5 0 10 true 7 true 0

/-- A 403 client-error response. -/
def t403 : TransportResult := .http 403 5 4 60 false 0 true 0

/-- The bucket after `req1`'s in-flight call succeeds from `exState2`. -/
def exBucket5 : BucketState :=
  { limit := some 5, remaining := 4, resetAt := 60, queue := [], inFlight := []
  , subLog := [1], dispLog := [1], settleLog := [(1, Outcome.success 42)] }

/-- The bucket after cancelling queued `req1` in `exState1`. -/
def exBucketC : BucketState :=
  { limit := none, remaining := 1, resetAt := 0, queue := [], inFlight := []
  , subLog := [1], dispLog := [], settleLog := [(1, Outcome.cancelled)] }

/-- The bucket after timing out queued `req1` in `exState1`. -/
def exBucketT : BucketState :=
  { limit := none, remaining := 1, resetAt := 0, queue := [], inFlight := []
  , subLog := [1], dispLog := [], settleLog := [(1, Outcome.failure .timedOut)] }

theorem normAux_append (l₁ l₂ : List PathSeg) (pm : Bool) :
    normAux pm (l₁ ++ l₂) = normAux pm l₁ ++ normAux (flagAfter pm l₁) l₂ := by
  induction l₁ generalizing pm with
  | nil => rfl
  | cons x rest ih =>
    cases x with
    | name s => simp [normAux, flagAfter, ih]
    | snowflake n => simp [normAux, flagAfter, ih]

theorem normAux_eq_of_minorOnlyDiff {pm : Bool} {p₁ p₂ : List PathSeg}
    (h : MinorOnlyDiff pm p₁ p₂) : normAux pm p₁ = normAux pm p₂ := by
  induction h with
  | nil => rfl
  | name pm pm' s r₁ r₂ hc _ ih => simp only [normAux, hc, ih]
  | majorId n r₁ r₂ _ ih => simp [normAux, ih]
  | minorId m n r₁ r₂ _ ih => simp [normAux, ih]

theorem getBucket_setBucket (k k' : BucketKey) (b : BucketState)
    (l : List (BucketKey × BucketState)) :
    getBucket k' (setBucket k b l) = if k = k' then some b else getBucket k' l := by
  induction l with
  | nil => by_cases h : k = k' <;> simp [setBucket, getBucket, h]
  | cons p rest ih =>
    obtain ⟨k₀, b₀⟩ := p
    by_cases h₀ : k₀ = k
    · subst h₀
      by_cases h : k₀ = k' <;> simp [setBucket, getBucket, h]
    · by_cases h : k₀ = k'
      · subst h
        have hk : ¬k = k₀ := fun hh => h₀ hh.symm
        simp [setBucket, getBucket, h₀, hk]
      · simp [setBucket, getBucket, h₀, h, ih]

theorem firstOccAux_append_of_mem (seen d : List ReqId) (x : ReqId)
    (h : x ∈ seen ∨ x ∈ d) :
    firstOccAux seen (d ++ [x]) = firstOccAux seen d := by
  induction d generalizing seen with
  | nil =>
    rcases h with h | h
    · simp [firstOccAux, h]
    · simp at h
  | cons y d ih =>
    by_cases hy : y ∈ seen
    · have h' : x ∈ seen ∨ x ∈ d := by
        rcases h with h | h
        · exact Or.inl h
        · rcases List.mem_cons.mp h with h | h
          · exact Or.inl (h ▸ hy)
          · exact Or.inr h
      simp [firstOccAux, hy, ih seen h']
    · have h' : x ∈ y :: seen ∨ x ∈ d := by
        rcases h with h | h
        · exact Or.inl (List.mem_cons_of_mem _ h)
        · rcases List.mem_cons.mp h with h | h
          · exact Or.inl (h ▸ List.mem_cons_self _ _)
          · exact Or.inr h
      simp [firstOccAux, hy, ih (y :: seen) h']

theorem firstOccAux_append_of_not_mem (seen d : List ReqId) (x : ReqId)
    (hs : x ∉ seen) (hd : x ∉ d) :
    firstOccAux seen (d ++ [x]) = firstOccAux seen d ++ [x] := by
  induction d generalizing seen with
  | nil => simp [firstOccAux, hs]
  | cons y d ih =>
    have hxy : x ≠ y := fun h => hd (h ▸ List.mem_cons_self _ _)
    have hd' : x ∉ d := fun h => hd (List.mem_cons_of_mem _ h)
    by_cases hy : y ∈ seen
    · simp [firstOccAux, hy, ih seen hs hd']
    · have hs' : x ∉ y :: seen := by
        intro h
        rcases List.mem_cons.mp h with h | h
        · exact hxy h
        · exact hs h
      simp [firstOccAux, hy, ih (y :: seen) hs' hd']

theorem eraseId_sublist (i : ReqId) (l : List PendingRequest) :
    (eraseId i l).Sublist l := by
  induction l with
  | nil => simp [eraseId]
  | cons r rest ih =>
    by_cases h : r.id = i
    · simp [eraseId, h, List.sublist_cons_self]
    · simpa [eraseId, h] using List.Sublist.cons₂ r ih

theorem reqIds_perm_eraseId (i : ReqId) (l : List PendingRequest)
    (h : i ∈ reqIds l) : List.Perm (reqIds l) (i :: reqIds (eraseId i l)) := by
  induction l with
  | nil => simp [reqIds] at h
  | cons r rest ih =>
    by_cases hr : r.id = i
    · simp [reqIds, eraseId, hr]
    · have h' : i ∈ reqIds rest := by
        rcases List.mem_cons.mp h with h | h
        · exact absurd h.symm hr
        · exact h
      have step₁ : List.Perm (reqIds (r :: rest)) (r.id :: i :: reqIds (eraseId i rest)) := by
        simpa [reqIds] using List.Perm.cons r.id (ih h')
      have step₂ : List.Perm (r.id :: i :: reqIds (eraseId i rest))
          (i :: r.id :: reqIds (eraseId i rest)) := List.Perm.swap _ _ _
      have step₃ : i :: r.id :: reqIds (eraseId i rest) =
          i :: reqIds (eraseId i (r :: rest)) := by simp [reqIds, eraseId, hr]
      exact step₃ ▸ step₁.trans step₂

theorem getBucket_setBucket_self (k : BucketKey) (b : BucketState)
    (l : List (BucketKey × BucketState)) :
    getBucket k (setBucket k b l) = some b := by
  rw [getBucket_setBucket, if_pos rfl]

theorem bucketInv_fresh : BucketInv freshBucket := by
  constructor <;>
    simp [freshBucket, bucketIds, pendIds, reqIds, freshIds, firstOcc, firstOccAux]

theorem getBucket_mem {k : BucketKey} {b : BucketState}
    {l : List (BucketKey × BucketState)} (h : getBucket k l = some b) :
    (k, b) ∈ l := by
  induction l with
  | nil => simp [getBucket] at h
  | cons p rest ih =>
    obtain ⟨k₀, b₀⟩ := p
    by_cases hk : k₀ = k
    · subst hk
      simp [getBucket] at h
      simp [h]
    · simp [getBucket, hk] at h
      exact List.mem_cons_of_mem _ (ih h)

theorem subLog_subset_allSubIds {k : BucketKey} {b : BucketState}
    {s : SysState} (h : getBucket k s.buckets = some b) {i : ReqId}
    (hi : i ∈ b.subLog) : i ∈ allSubIds s := by
  have hm := getBucket_mem h
  simp only [allSubIds, List.mem_flatten]
  exact ⟨b.subLog, List.mem_map.mpr ⟨(k, b), hm, rfl⟩, hi⟩

theorem applyHeaders_queue (b : BucketState) (t : TransportResult) :
    (applyHeaders b t).queue = b.queue := by cases t <;> rfl

theorem applyHeaders_inFlight (b : BucketState) (t : TransportResult) :
    (applyHeaders b t).inFlight = b.inFlight := by cases t <;> rfl

theorem applyHeaders_subLog (b : BucketState) (t : TransportResult) :
    (applyHeaders b t).subLog = b.subLog := by cases t <;> rfl

theorem applyHeaders_dispLog (b : BucketState) (t : TransportResult) :
    (applyHeaders b t).dispLog = b.dispLog := by cases t <;> rfl

theorem applyHeaders_settleLog (b : BucketState) (t : TransportResult) :
    (applyHeaders b t).settleLog = b.settleLog := by cases t <;> rfl

theorem applyHeaders_limit_none {b : BucketState} {t : TransportResult}
    (h : (applyHeaders b t).limit = none) : b.limit = none := by
  cases t with
  | http status limitH remainingH resetAtH globalFlag retryAfter parseOk payload =>
    simp [applyHeaders] at h
  | netError => exact h

theorem storeInv_set_same_subLog {l : List (BucketKey × BucketState)}
    {k : BucketKey} {b b' : BucketState} (hInv : StoreInv l)
    (hb : getBucket k l = some b) (hBI : BucketInv b')
    (hSub : b'.subLog = b.subLog) : StoreInv (setBucket k b' l) := by
  constructor
  · intro k' b'' h
    rw [getBucket_setBucket] at h
    by_cases hk : k = k'
    · simp [hk] at h
      exact h ▸ hBI
    · simp [hk] at h
      exact hInv.1 k' b'' h
  · intro k₁ k₂ b₁ b₂ hne h₁ h₂ i hi
    rw [getBucket_setBucket] at h₁ h₂
    by_cases hk₁ : k = k₁
    · have hk₂ : ¬k = k₂ := fun h => hne (hk₁ ▸ h)
      simp [hk₁] at h₁
      simp [hk₂] at h₂
      subst h₁
      exact hInv.2 k₁ k₂ b b₂ hne (hk₁ ▸ hb) h₂ i (hSub ▸ hi)
    · simp [hk₁] at h₁
      by_cases hk₂ : k = k₂
      · simp [hk₂] at h₂
        subst h₂
        have := hInv.2 k₁ k₂ b₁ b hne h₁ (hk₂ ▸ hb) i hi
        rw [hSub]
        exact this
      · simp [hk₂] at h₂
        exact hInv.2 k₁ k₂ b₁ b₂ hne h₁ h₂ i hi

theorem storeInv_set_submit {l : List (BucketKey × BucketState)}
    {k : BucketKey} {b' : BucketState} {i : ReqId} (hInv : StoreInv l)
    (hBI : BucketInv b')
    (hSub : b'.subLog = ((getBucket k l).getD freshBucket).subLog ++ [i])
    (hFresh : ∀ k' b'', getBucket k' l = some b'' → i ∉ b''.subLog) :
    StoreInv (setBucket k b' l) := by
  constructor
  · intro k' b'' h
    rw [getBucket_setBucket] at h
    by_cases hk : k = k'
    · simp [hk] at h
      exact h ▸ hBI
    · simp [hk] at h
      exact hInv.1 k' b'' h
  · intro k₁ k₂ b₁ b₂ hne h₁ h₂ j hj
    rw [getBucket_setBucket] at h₁ h₂
    by_cases hk₁ : k = k₁
    · have hk₂ : ¬k = k₂ := fun h => hne (hk₁ ▸ h)
      simp [hk₁] at h₁
      simp [hk₂] at h₂
      subst h₁
      rw [hSub] at hj
      rcases List.mem_append.mp hj with hj | hj
      · cases hg : getBucket k l with
        | none => simp [hg, freshBucket] at hj
        | some b₀ =>
          rw [hg] at hj
          exact hInv.2 k₁ k₂ b₀ b₂ hne (hk₁ ▸ hg) h₂ j hj
      · have : j = i := by simpa using hj
        subst this
        exact hFresh k₂ b₂ h₂
    · simp [hk₁] at h₁
      by_cases hk₂ : k = k₂
      · simp [hk₂] at h₂
        subst h₂
        rw [hSub]
        intro hj'
        rcases List.mem_append.mp hj' with hj' | hj'
        · cases hg : getBucket k l with
          | none => simp [hg, freshBucket] at hj'
          | some b₀ =>
            rw [hg] at hj'
            exact hInv.2 k₁ k₂ b₁ b₀ hne h₁ (hk₂ ▸ hg) j hj hj'
        · have : j = i := by simpa using hj'
          subst this
          exact hFresh k₁ b₁ h₁ hj
      · simp [hk₂] at h₂
        exact hInv.2 k₁ k₂ b₁ b₂ hne h₁ h₂ j hj

theorem bucketInv_submit {b₀ b' : BucketState} {r : PendingRequest}
    (hBI : BucketInv b₀) (hrc : r.retryCount = 0) (hid : r.id ∉ b₀.subLog)
    (hb' : b' = { b₀ with
      queue := b₀.queue ++ [r],
      subLog := b₀.subLog ++ [r.id] }) :
    BucketInv b' := by
  have hnot : r.id ∉ bucketIds b₀ := fun h => hid (hBI.idsSub _ h)
  have hq : b'.queue = b₀.queue ++ [r] := by rw [hb']
  have hsub : b'.subLog = b₀.subLog ++ [r.id] := by rw [hb']
  have hifl : b'.inFlight = b₀.inFlight := by rw [hb']
  have hd : b'.dispLog = b₀.dispLog := by rw [hb']
  have hst : b'.settleLog = b₀.settleLog := by rw [hb']
  have hlim : b'.limit = b₀.limit := by rw [hb']
  have hperm : List.Perm (bucketIds b') (r.id :: bucketIds b₀) := by
    rw [List.perm_iff_count]
    intro a
    simp [bucketIds, pendIds, reqIds, hq, hifl, hst,
      List.count_append, List.count_cons]
    omega
  constructor
  · exact hperm.symm.nodup (List.nodup_cons.mpr ⟨hnot, hBI.nodupIds⟩)
  · intro i hi
    rw [hsub]
    rcases List.mem_cons.mp (hperm.subset hi) with h | h
    · subst h
      simp
    · simp only [List.mem_append]
      exact Or.inl (hBI.idsSub i h)
  · intro i hi
    rw [hsub]
    rw [hd] at hi
    simp only [List.mem_append]
    exact Or.inl (hBI.dispSub i hi)
  · intro r' hr' hc'
    rw [hq] at hr'
    rw [hd]
    rcases List.mem_append.mp hr' with h | h
    · exact hBI.freshNotDispatched r' h hc'
    · have : r' = r := by simpa using h
      subst this
      exact fun hdm => hid (hBI.dispSub _ hdm)
  · intro r' hr' hc'
    rw [hq] at hr'
    rw [hd]
    rcases List.mem_append.mp hr' with h | h
    · exact hBI.retriedDispatched r' h hc'
    · have : r' = r := by simpa using h
      subst this
      omega
  · intro r' hr'
    rw [hifl] at hr'
    rw [hd]
    exact hBI.inFlightDispatched r' hr'
  · have hfr : freshIds b' = freshIds b₀ ++ [r.id] := by
      simp [freshIds, reqIds, hq, List.filter_append, hrc]
    rw [hfr, hd, hsub]
    have := hBI.fifo.append (List.Sublist.refl [r.id])
    simpa [List.append_assoc] using this
  · rw [hlim, hifl]
    exact hBI.serialUnknown

theorem bucketInv_dispatch {b b' : BucketState} {r : PendingRequest}
    {rest : List PendingRequest} (hBI : BucketInv b) (hq : b.queue = r :: rest)
    (hser : b.limit = none → b.inFlight = [])
    (hb' : b' = { b with
      queue := rest,
      inFlight := b.inFlight ++ [r],
      remaining := b.remaining - 1,
      dispLog := b.dispLog ++ [r.id] }) :
    BucketInv b' := by
  have hq' : b'.queue = rest := by rw [hb']
  have hifl : b'.inFlight = b.inFlight ++ [r] := by rw [hb']
  have hd : b'.dispLog = b.dispLog ++ [r.id] := by rw [hb']
  have hsub : b'.subLog = b.subLog := by rw [hb']
  have hst : b'.settleLog = b.settleLog := by rw [hb']
  have hlim : b'.limit = b.limit := by rw [hb']
  have hrq : r ∈ b.queue := by rw [hq]; exact List.mem_cons_self _ _
  have hridq : r.id ∈ bucketIds b := by
    simp only [bucketIds, pendIds, reqIds, List.mem_append]
    exact Or.inl (Or.inl (List.mem_map.mpr ⟨r, hrq, rfl⟩))
  have hperm : List.Perm (bucketIds b') (bucketIds b) := by
    rw [List.perm_iff_count]
    intro a
    simp [bucketIds, pendIds, reqIds, hq, hq', hifl, hst,
      List.count_append, List.count_cons]
    omega
  have hqnodup : r.id ∉ reqIds rest := by
    have h₁ : (reqIds b.queue).Nodup := by
      have := hBI.nodupIds
      simp only [bucketIds, pendIds] at this
      exact (this.of_append_left).of_append_left
    rw [hq] at h₁
    simp only [reqIds, List.map_cons, List.nodup_cons] at h₁
    exact h₁.1
  constructor
  · exact hperm.symm.nodup hBI.nodupIds
  · intro i hi
    rw [hsub]
    exact hBI.idsSub i (hperm.subset hi)
  · intro i hi
    rw [hd] at hi
    rw [hsub]
    rcases List.mem_append.mp hi with h | h
    · exact hBI.dispSub i h
    · have : i = r.id := by simpa using h
      subst this
      exact hBI.idsSub _ hridq
  · intro r' hr' hc'
    rw [hq'] at hr'
    rw [hd]
    have hr'q : r' ∈ b.queue := by rw [hq]; exact List.mem_cons_of_mem _ hr'
    have h₁ : r'.id ∉ b.dispLog := hBI.freshNotDispatched r' hr'q hc'
    have h₂ : r'.id ≠ r.id := by
      intro h
      exact hqnodup (h ▸ List.mem_map.mpr ⟨r', hr', rfl⟩)
    intro hmem
    rcases List.mem_append.mp hmem with h | h
    · exact h₁ h
    · exact h₂ (by simpa using h)
  · intro r' hr' hc'
    rw [hq'] at hr'
    rw [hd]
    have hr'q : r' ∈ b.queue := by rw [hq]; exact List.mem_cons_of_mem _ hr'
    exact List.mem_append.mpr (Or.inl (hBI.retriedDispatched r' hr'q hc'))
  · intro r' hr'
    rw [hifl] at hr'
    rw [hd]
    rcases List.mem_append.mp hr' with h | h
    · exact List.mem_append.mpr (Or.inl (hBI.inFlightDispatched r' h))
    · have : r' = r := by simpa using h
      subst this
      simp
  · rw [hd, hsub]
    by_cases hc : r.retryCount = 0
    · have hnotd : r.id ∉ b.dispLog := hBI.freshNotDispatched r hrq hc
      have h₁ : firstOcc (b.dispLog ++ [r.id]) = firstOcc b.dispLog ++ [r.id] :=
        firstOccAux_append_of_not_mem [] b.dispLog r.id (by simp) hnotd
      have h₂ : freshIds b = r.id :: freshIds b' := by
        simp [freshIds, reqIds, hq, hq', List.filter_cons, hc]
      have hold := hBI.fifo
      rw [h₂] at hold
      rw [h₁]
      simpa [List.append_assoc] using hold
    · have hmemd : r.id ∈ b.dispLog :=
        hBI.retriedDispatched r hrq (Nat.pos_of_ne_zero hc)
      have h₁ : firstOcc (b.dispLog ++ [r.id]) = firstOcc b.dispLog :=
        firstOccAux_append_of_mem [] b.dispLog r.id (Or.inr hmemd)
      have h₂ : freshIds b = freshIds b' := by
        simp [freshIds, reqIds, hq, hq', List.filter_cons, hc]
      have hold := hBI.fifo
      rw [h₂] at hold
      rw [h₁]
      exact hold
  · rw [hlim, hifl]
    intro hl
    simp [hser hl]

theorem bucketInv_remove {b b' : BucketState} {r : PendingRequest} {o : Outcome}
    (hBI : BucketInv b) (hr : r ∈ b.queue)
    (hq : b'.queue = eraseId r.id b.queue)
    (hifl : b'.inFlight = b.inFlight)
    (hsub : b'.subLog = b.subLog) (hd : b'.dispLog = b.dispLog)
    (hst : b'.settleLog = b.settleLog ++ [(r.id, o)])
    (hlim : b'.limit = b.limit) :
    BucketInv b' := by
  have hmemq : r.id ∈ reqIds b.queue := List.mem_map.mpr ⟨r, hr, rfl⟩
  have hpermQ := reqIds_perm_eraseId r.id b.queue hmemq
  have hperm : List.Perm (bucketIds b') (bucketIds b) := by
    rw [List.perm_iff_count]
    intro a
    rw [show (bucketIds b).count a = (bucketIds b).count a from rfl]
    simp only [bucketIds, pendIds, List.count_append]
    rw [hpermQ.count_eq a]
    by_cases ha : a = r.id <;>
      simp [hq, hifl, hst, List.count_append, List.count_cons, ha] <;> omega
  constructor
  · exact hperm.symm.nodup hBI.nodupIds
  · intro i hi
    rw [hsub]
    exact hBI.idsSub i (hperm.subset hi)
  · intro i hi
    rw [hd] at hi
    rw [hsub]
    exact hBI.dispSub i hi
  · intro r' hr' hc'
    rw [hq] at hr'
    rw [hd]
    exact hBI.freshNotDispatched r' ((eraseId_sublist r.id b.queue).subset hr') hc'
  · intro r' hr' hc'
    rw [hq] at hr'
    rw [hd]
    exact hBI.retriedDispatched r' ((eraseId_sublist r.id b.queue).subset hr') hc'
  · intro r' hr'
    rw [hifl] at hr'
    rw [hd]
    exact hBI.inFlightDispatched r' hr'
  · have h₁ : (freshIds b').Sublist (freshIds b) := by
      rw [show freshIds b' = reqIds (List.filter (fun x => x.retryCount == 0) (eraseId r.id b.queue)) from by rw [freshIds, hq]]
      exact (((eraseId_sublist r.id b.queue).filter _).map _)
    rw [hd, hsub]
    exact (h₁.append_left (firstOcc b.dispLog)).trans hBI.fifo
  · rw [hlim, hifl]
    exact hBI.serialUnknown

theorem bucketInv_respond_retry {b b' : BucketState} {r : PendingRequest}
    (hBI : BucketInv b) (hr : r ∈ b.inFlight)
    (hq : b'.queue = b.queue ++ [{ r with retryCount := r.retryCount + 1 }])
    (hifl : b'.inFlight = eraseId r.id b.inFlight)
    (hsub : b'.subLog = b.subLog) (hd : b'.dispLog = b.dispLog)
    (hst : b'.settleLog = b.settleLog)
    (hlim : b'.limit = none → b.limit = none) :
    BucketInv b' := by
  have hrid : ({ r with retryCount := r.retryCount + 1 } : PendingRequest).id = r.id := rfl
  have hmemI : r.id ∈ reqIds b.inFlight := List.mem_map.mpr ⟨r, hr, rfl⟩
  have hpermI := reqIds_perm_eraseId r.id b.inFlight hmemI
  have hperm : List.Perm (bucketIds b') (bucketIds b) := by
    rw [List.perm_iff_count]
    intro a
    simp only [bucketIds, pendIds, List.count_append]
    rw [hpermI.count_eq a]
    by_cases ha : a = r.id <;>
      simp [hq, hifl, hst, reqIds, List.count_append, List.count_cons, ha] <;>
      omega
  constructor
  · exact hperm.symm.nodup hBI.nodupIds
  · intro i hi
    rw [hsub]
    exact hBI.idsSub i (hperm.subset hi)
  · intro i hi
    rw [hd] at hi
    rw [hsub]
    exact hBI.dispSub i hi
  · intro x hx hc'
    rw [hq] at hx
    rw [hd]
    rcases List.mem_append.mp hx with h | h
    · exact hBI.freshNotDispatched x h hc'
    · have hx' : x = { r with retryCount := r.retryCount + 1 } := by simpa using h
      subst hx'
      simp at hc'
  · intro x hx hc'
    rw [hq] at hx
    rw [hd]
    rcases List.mem_append.mp hx with h | h
    · exact hBI.retriedDispatched x h hc'
    · have hx' : x = { r with retryCount := r.retryCount + 1 } := by simpa using h
      subst hx'
      rw [hrid]
      exact hBI.inFlightDispatched r hr
  · intro x hx
    rw [hifl] at hx
    rw [hd]
    exact hBI.inFlightDispatched x ((eraseId_sublist r.id b.inFlight).subset hx)
  · have h₁ : freshIds b' = freshIds b := by
      simp [freshIds, reqIds, hq, List.filter_append, List.filter_cons]
    rw [h₁, hd, hsub]
    exact hBI.fifo
  · intro hl
    have := hBI.serialUnknown (hlim hl)
    rw [hifl]
    have hle := (eraseId_sublist r.id b.inFlight).length_le
    omega

theorem bucketInv_respond_settle {b b' : BucketState} {r : PendingRequest}
    {o : Outcome}
    (hBI : BucketInv b) (hr : r ∈ b.inFlight)
    (hq : b'.queue = b.queue)
    (hifl : b'.inFlight = eraseId r.id b.inFlight)
    (hsub : b'.subLog = b.subLog) (hd : b'.dispLog = b.dispLog)
    (hst : b'.settleLog = b.settleLog ++ [(r.id, o)])
    (hlim : b'.limit = none → b.limit = none) :
    BucketInv b' := by
  have hmemI : r.id ∈ reqIds b.inFlight := List.mem_map.mpr ⟨r, hr, rfl⟩
  have hpermI := reqIds_perm_eraseId r.id b.inFlight hmemI
  have hperm : List.Perm (bucketIds b') (bucketIds b) := by
    rw [List.perm_iff_count]
    intro a
    simp only [bucketIds, pendIds, List.count_append]
    rw [hpermI.count_eq a]
    by_cases ha : a = r.id <;>
      simp [hq, hifl, hst, reqIds, List.count_append, List.count_cons, ha] <;>
      omega
  constructor
  · exact hperm.symm.nodup hBI.nodupIds
  · intro i hi
    rw [hsub]
    exact hBI.idsSub i (hperm.subset hi)
  · intro i hi
    rw [hd] at hi
    rw [hsub]
    exact hBI.dispSub i hi
  · intro x hx hc'
    rw [hq] at hx
    rw [hd]
    exact hBI.freshNotDispatched x hx hc'
  · intro x hx hc'
    rw [hq] at hx
    rw [hd]
    exact hBI.retriedDispatched x hx hc'
  · intro x hx
    rw [hifl] at hx
    rw [hd]
    exact hBI.inFlightDispatched x ((eraseId_sublist r.id b.inFlight).subset hx)
  · have h₁ : freshIds b' = freshIds b := by
      simp [freshIds, reqIds, hq]
    rw [h₁, hd, hsub]
    exact hBI.fifo
  · intro hl
    have := hBI.serialUnknown (hlim hl)
    rw [hifl]
    have hle := (eraseId_sublist r.id b.inFlight).length_le
    omega

theorem storeInv_step {maxRetries : Nat} {s : SysState} {l : Label}
    {s' : SysState} (h : Step maxRetries s l s') (hInv : StoreInv s.buckets) :
    StoreInv s'.buckets := by
  cases h with
  | submit k r hrc hfresh =>
    have hb₀ : BucketInv ((getBucket k s.buckets).getD freshBucket) := by
      cases hg : getBucket k s.buckets with
      | none => exact bucketInv_fresh
      | some b => exact hInv.1 k b hg
    have hid : r.id ∉ ((getBucket k s.buckets).getD freshBucket).subLog := by
      cases hg : getBucket k s.buckets with
      | none => simp [freshBucket]
      | some b =>
        simp only [Option.getD_some]
        intro hmem
        exact hfresh (subLog_subset_allSubIds hg hmem)
    have hBI := bucketInv_submit hb₀ hrc hid rfl
    show StoreInv (submitState s k r).buckets
    simp only [submitState]
    exact storeInv_set_submit hInv hBI rfl
      (fun k' b'' hg hmem => hfresh (subLog_subset_allSubIds hg hmem))
  | dispatch k b r rest hget hq hgl hbud hser =>
    have hBI := bucketInv_dispatch (hInv.1 k b hget) hq hser rfl
    show StoreInv (dispatchState s k b r rest).buckets
    simp only [dispatchState]
    exact storeInv_set_same_subLog hInv hget hBI rfl
  | respond k b r t hget hr =>
    show StoreInv (respondState maxRetries s k b r t).buckets
    rcases hdec : RetryCoordinator.decide maxRetries r t with after | e | v
    all_goals simp only [respondState, hdec]
    · apply storeInv_set_same_subLog hInv hget
        (bucketInv_respond_retry (hInv.1 k b hget) hr ?_ ?_ ?_ ?_ ?_ ?_) ?_
      all_goals
        first
          | (intro hl
             exact @applyHeaders_limit_none { b with inFlight := eraseId r.id b.inFlight } t hl)
          | simp [applyHeaders_queue, applyHeaders_inFlight, applyHeaders_subLog,
              applyHeaders_dispLog, applyHeaders_settleLog]
    · apply storeInv_set_same_subLog hInv hget
        (@bucketInv_respond_settle b _ r (Outcome.failure e)
          (hInv.1 k b hget) hr ?_ ?_ ?_ ?_ ?_ ?_) ?_
      all_goals
        first
          | (intro hl
             exact @applyHeaders_limit_none { b with inFlight := eraseId r.id b.inFlight } t hl)
          | simp [applyHeaders_queue, applyHeaders_inFlight, applyHeaders_subLog,
              applyHeaders_dispLog, applyHeaders_settleLog]
    · apply storeInv_set_same_subLog hInv hget
        (@bucketInv_respond_settle b _ r (Outcome.success v)
          (hInv.1 k b hget) hr ?_ ?_ ?_ ?_ ?_ ?_) ?_
      all_goals
        first
          | (intro hl
             exact @applyHeaders_limit_none { b with inFlight := eraseId r.id b.inFlight } t hl)
          | simp [applyHeaders_queue, applyHeaders_inFlight, applyHeaders_subLog,
              applyHeaders_dispLog, applyHeaders_settleLog]
  | cancel k b r hget hr =>
    have hBI := @bucketInv_remove b
      { b with
        queue := eraseId r.id b.queue,
        settleLog := b.settleLog ++ [(r.id, Outcome.cancelled)] }
      r Outcome.cancelled (hInv.1 k b hget) hr rfl rfl rfl rfl rfl rfl
    show StoreInv (cancelState s k b r).buckets
    simp only [cancelState]
    exact storeInv_set_same_subLog hInv hget hBI rfl
  | timeout k b r hget hr hdl =>
    have hBI := @bucketInv_remove b
      { b with
        queue := eraseId r.id b.queue,
        settleLog := b.settleLog ++ [(r.id, Outcome.failure ErrKind.timedOut)] }
      r (Outcome.failure ErrKind.timedOut) (hInv.1 k b hget) hr rfl rfl rfl rfl rfl rfl
    show StoreInv (timeoutState s k b r).buckets
    simp only [timeoutState]
    exact storeInv_set_same_subLog hInv hget hBI rfl
  | tick t' ht =>
    exact hInv

theorem storeInv_of_trace {maxRetries : Nat} {s₀ : SysState} {ls : List Label}
    {s₁ : SysState} (tr : Trace maxRetries s₀ ls s₁)
    (h₀ : StoreInv s₀.buckets) : StoreInv s₁.buckets := by
  induction tr with
  | refl => exact h₀
  | snoc tr st ih => exact storeInv_step st ih

theorem storeInv_initState : StoreInv initState.buckets := by
  constructor
  · intro k b h
    simp [initState, getBucket] at h
  · intro k₁ k₂ b₁ b₂ hne h₁
    simp [initState, getBucket] at h₁

theorem storeInv_reachable {maxRetries : Nat} {s : SysState}
    (h : Reachable maxRetries s) : StoreInv s.buckets := by
  obtain ⟨ls, tr⟩ := h
  exact storeInv_of_trace tr storeInv_initState

/-! ## Claim theorems -/

/-- C6: route key resolution is a pure function of method and path and is
discriminating — two paths differing only in minor (non-major) identifiers
resolve to the same bucket key; two paths differing in the identifier behind a
major scope, or in HTTP method, resolve to different keys. -/
theorem route_key_resolution_discriminating :
    (∀ m p₁ p₂, MinorOnlyDiff false p₁ p₂ →
      RouteResolver.resolve m p₁ = RouteResolver.resolve m p₂) ∧
    (∀ m pre sc a b suf₁ suf₂, majorScopes.contains sc = true → a ≠ b →
      RouteResolver.resolve m (pre ++ PathSeg.name sc :: PathSeg.snowflake a :: suf₁) ≠
      RouteResolver.resolve m (pre ++ PathSeg.name sc :: PathSeg.snowflake b :: suf₂)) ∧
    (∀ m₁ m₂ p₁ p₂, m₁ ≠ m₂ →
      RouteResolver.resolve m₁ p₁ ≠ RouteResolver.resolve m₂ p₂) := by
  refine ⟨?_, ?_, ?_⟩
  · intro m p₁ p₂ h
    simp only [RouteResolver.resolve]
    rw [normAux_eq_of_minorOnlyDiff h]
  · intro m pre sc a b suf₁ suf₂ hsc hab h
    simp only [RouteResolver.resolve, Prod.mk.injEq, true_and] at h
    rw [normAux_append, normAux_append] at h
    simp only [normAux, hsc] at h
    have h' := List.append_cancel_left h
    simp at h'
    exact hab h'.1
  · intro m₁ m₂ p₁ p₂ hne h
    exact hne (congrArg Prod.fst h)

/-- C6 witness: concrete paths — message id is minor (same key), channel id is
major (different keys), method discriminates. -/
theorem route_key_resolution_discriminating_witness :
    RouteResolver.resolve "GET"
      [PathSeg.name "channels", PathSeg.snowflake 10, PathSeg.name "messages",
        PathSeg.snowflake 5] =
    RouteResolver.resolve "GET"
      [PathSeg.name "channels", PathSeg.snowflake 10, PathSeg.name "messages",
        PathSeg.snowflake 9] ∧
    RouteResolver.resolve "GET"
      ([] ++ PathSeg.name "channels" :: PathSeg.snowflake 10 :: []) ≠
    RouteResolver.resolve "GET"
      ([] ++ PathSeg.name "channels" :: PathSeg.snowflake 11 :: []) ∧
    RouteResolver.resolve "GET" [PathSeg.name "gateway"] ≠
    RouteResolver.resolve "POST" [PathSeg.name "gateway"] := by
  refine ⟨?_, ?_, ?_⟩
  · exact route_key_resolution_discriminating.1 "GET" _ _
      (MinorOnlyDiff.name false true "channels" _ _ (by decide)
        (MinorOnlyDiff.majorId 10 _ _
          (MinorOnlyDiff.name false false "messages" _ _ (by decide)
            (MinorOnlyDiff.minorId 5 9 [] [] (MinorOnlyDiff.nil false)))))
  · exact route_key_resolution_discriminating.2.1 "GET" [] "channels" 10 11 [] []
      (by decide) (by decide)
  · exact route_key_resolution_discriminating.2.2 "GET" "POST" _ _ (by decide)

/-- C9: the exported factory `createSnowTransfer(...args)` returns exactly
`new SnowTransfer(...args)` with the arguments forwarded unchanged, and the
module's `SnowTransfer` property is that same class, so both construction
paths of the public entry point agree. -/
theorem factory_equals_constructor :
    ∀ (Arg Inst : Type) (snowTransferCtor : List Arg → Inst) (args : List Arg),
      (moduleExport snowTransferCtor).call args = snowTransferCtor args ∧
      createSnowTransfer snowTransferCtor args = snowTransferCtor args ∧
      (moduleExport snowTransferCtor).snowTransferProp = snowTransferCtor :=
  fun _ _ _ _ => ⟨rfl, rfl, rfl⟩

/-- C10: the options argument of the `SnowTransfer` constructor is optional —
a client is constructed from a token alone — and when `baseHost` is not
supplied the base host defaults to https://discordapp.com. -/
theorem constructor_options_default :
    (∀ token, mkSnowTransfer token none =
      { token := token, baseHost := "https://discordapp.com" }) ∧
    (∀ token options, options.baseHost = none →
      (mkSnowTransfer token (some options)).baseHost = "https://discordapp.com") ∧
    (∀ token options host, options.baseHost = some host →
      (mkSnowTransfer token (some options)).baseHost = host) := by
  refine ⟨?_, ?_, ?_⟩
  · intro token
    rfl
  · intro token options h
    simp [mkSnowTransfer, h, defaultBaseHost]
  · intro token options host h
    simp [mkSnowTransfer, h]

/-- C10 witness: concrete constructor calls. -/
theorem constructor_options_default_witness :
    mkSnowTransfer "token" none =
      { token := "token", baseHost := "https://discordapp.com" } ∧
    (mkSnowTransfer "token"
      (some { sentryDsn := none, sentryOptions := none, baseHost := none })).baseHost =
      "https://discordapp.com" ∧
    (mkSnowTransfer "token"
      (some { sentryDsn := none, sentryOptions := none,
              baseHost := some "https://proxy.test" })).baseHost =
      "https://proxy.test" := by
  refine ⟨?_, ?_, ?_⟩
  · exact constructor_options_default.1 "token"
  · exact constructor_options_default.2.1 "token" _ rfl
  · exact constructor_options_default.2.2 "token" _ "https://proxy.test" rfl

theorem eraseId_eq_of_mem_not_mem {r : PendingRequest} {i : ReqId}
    {l : List PendingRequest} (h : r ∈ l) (h2 : r ∉ eraseId i l) : r.id = i := by
  induction l with
  | nil => simp at h
  | cons x xs ih =>
    by_cases hx : x.id = i
    · simp only [eraseId, hx, if_pos] at h2
      rcases List.mem_cons.mp h with h | h
      · subst h
        exact hx
      · exact absurd h h2
    · simp only [eraseId, hx, if_neg, not_false_eq_true] at h2
      rcases List.mem_cons.mp h with h | h
      · subst h
        exact absurd (List.mem_cons_self _ _) h2
      · exact ih h (fun hc => h2 (List.mem_cons_of_mem _ hc))

theorem globalUnlockAt_mono_step {maxRetries : Nat} {s : SysState} {l : Label}
    {s' : SysState} (h : Step maxRetries s l s') :
    s.globalUnlockAt ≤ s'.globalUnlockAt := by
  cases h with
  | submit k r hrc hfresh => exact Nat.le_refl _
  | dispatch k b r rest hget hq hgl hbud hser => exact Nat.le_refl _
  | respond k b r t hget hr =>
    rcases hdec : RetryCoordinator.decide maxRetries r t with a | e | v <;>
      simp only [respondState, hdec] <;>
      by_cases hg : isGlobalThrottle t <;>
      simp [hg, Nat.le_max_left]
  | cancel k b r hget hr => exact Nat.le_refl _
  | timeout k b r hget hr hdl => exact Nat.le_refl _
  | tick t' ht => exact Nat.le_refl _

theorem globalUnlockAt_mono_trace {maxRetries : Nat} {s₀ : SysState}
    {ls : List Label} {s₁ : SysState} (tr : Trace maxRetries s₀ ls s₁) :
    s₀.globalUnlockAt ≤ s₁.globalUnlockAt := by
  induction tr with
  | refl => exact Nat.le_refl _
  | snoc tr st ih => exact Nat.le_trans ih (globalUnlockAt_mono_step st)

theorem dispatch_requires_lock_clear {maxRetries : Nat} {s : SysState}
    {k : BucketKey} {i : ReqId} {s' : SysState}
    (h : Step maxRetries s (Label.dispatch k i) s') :
    s.globalUnlockAt ≤ s.time := by
  cases h
  rename_i hq hgl hbud hser hget
  exact hgl

theorem respond_global_throttle_arms_lock {maxRetries : Nat} {s : SysState}
    {k : BucketKey} {i : ReqId} {t : TransportResult} {s' : SysState}
    (h : Step maxRetries s (Label.respond k i t) s')
    (hg : isGlobalThrottle t = true) :
    s.time + retryAfterOf t ≤ s'.globalUnlockAt := by
  cases h
  rename_i r hget hr
  rcases hdec : RetryCoordinator.decide maxRetries r t with a | e | v <;>
    simp [respondState, hdec, hg, Nat.le_max_right]

/-- C3: a bucket whose budget is exhausted (`remaining = 0`) dispatches
nothing before its reset time, and every dispatch optimistically decrements
`remaining`. -/
theorem reset_window_respected {maxRetries : Nat} {s : SysState}
    {k : BucketKey} {b : BucketState}
    (hget : getBucket k s.buckets = some b) :
    (b.remaining = 0 → s.time < b.resetAt →
      ¬∃ i s', Step maxRetries s (Label.dispatch k i) s') ∧
    (∀ i s', Step maxRetries s (Label.dispatch k i) s' →
      ∃ b', getBucket k s'.buckets = some b' ∧
        b'.remaining = b.remaining - 1) := by
  constructor
  · rintro hrem htime ⟨i, s', hstep⟩
    cases hstep
    rename_i hq hgl hbud hser hget₀
    rw [hget] at hget₀
    cases hget₀
    rcases hbud with h | h
    · omega
    · omega
  · intro i s' hstep
    cases hstep
    rename_i b₀ r₀ rest₀ hq hgl hbud hser hget₀
    rw [hget] at hget₀
    cases hget₀
    refine ⟨{ b with
      queue := rest₀,
      inFlight := b.inFlight ++ [r₀],
      remaining := b.remaining - 1,
      dispLog := b.dispLog ++ [r₀.id] }, ?_, rfl⟩
    simp only [dispatchState]
    rw [getBucket_setBucket, if_pos rfl]

/-- C4: a throttling response flagged global with wait duration `R` blocks
dispatch in every bucket — not only the receiving one — for at least `R`. -/
theorem global_lock_blocks_all_buckets {maxRetries : Nat}
    {s s' s'' : SysState} {k : BucketKey} {i : ReqId} {t : TransportResult}
    {R : Nat} {ls : List Label}
    (hstep : Step maxRetries s (Label.respond k i t) s')
    (hglob : isGlobalThrottle t = true)
    (hR : retryAfterOf t = R)
    (htr : Trace maxRetries s' ls s'')
    (htime : s''.time < s.time + R) :
    ¬∃ k' i' s₃, Step maxRetries s'' (Label.dispatch k' i') s₃ := by
  rintro ⟨k', i', s₃, hd⟩
  have h₁ : s.time + R ≤ s'.globalUnlockAt :=
    hR ▸ respond_global_throttle_arms_lock hstep hglob
  have h₂ : s'.globalUnlockAt ≤ s''.globalUnlockAt := globalUnlockAt_mono_trace htr
  have h₃ : s''.globalUnlockAt ≤ s''.time := dispatch_requires_lock_clear hd
  omega

/-- C5: while a bucket's limit is unknown, dispatch is fully serialized — at
most one request of the bucket is in flight, a dispatch on such a bucket
requires the in-flight set to be empty, and an in-flight request only leaves
the in-flight set through its own transport response. -/
theorem unknown_limit_serializes {maxRetries : Nat} {s : SysState}
    (hReach : Reachable maxRetries s) :
    (∀ k b, getBucket k s.buckets = some b → b.limit = none →
      b.inFlight.length ≤ 1) ∧
    (∀ k i s' b, Step maxRetries s (Label.dispatch k i) s' →
      getBucket k s.buckets = some b → b.limit = none → b.inFlight = []) ∧
    (∀ l s' k b b' r, Step maxRetries s l s' →
      getBucket k s.buckets = some b → getBucket k s'.buckets = some b' →
      r ∈ b.inFlight → r ∉ b'.inFlight → ∃ t, l = Label.respond k r.id t) := by
  refine ⟨?_, ?_, ?_⟩
  · intro k b hget hlim
    exact ((storeInv_reachable hReach).1 k b hget).serialUnknown hlim
  · intro k i s' b hstep hget hlim
    cases hstep
    rename_i b₀ r₀ rest₀ hq hgl hbud hser hget₀
    rw [hget] at hget₀
    cases hget₀
    exact hser hlim
  · intro l s' k b b' r hstep hget hget' hrin hrnot
    cases hstep with
    | submit k₀ r₀ hrc hfresh =>
      simp only [submitState] at hget'
      rw [getBucket_setBucket] at hget'
      by_cases hk : k₀ = k
      · rw [if_pos hk] at hget'
        cases hget'
        subst hk
        simp only [hget, Option.getD_some] at hrnot
        exact absurd hrin hrnot
      · rw [if_neg hk] at hget'
        rw [hget] at hget'
        cases hget'
        exact absurd hrin hrnot
    | dispatch k₀ b₀ r₀ rest₀ hget₀ hq hgl hbud hser =>
      simp only [dispatchState] at hget'
      rw [getBucket_setBucket] at hget'
      by_cases hk : k₀ = k
      · rw [if_pos hk] at hget'
        cases hget'
        subst hk
        rw [hget] at hget₀
        cases hget₀
        simp only [List.mem_append] at hrnot
        exact absurd (Or.inl hrin) hrnot
      · rw [if_neg hk] at hget'
        rw [hget] at hget'
        cases hget'
        exact absurd hrin hrnot
    | respond k₀ b₀ r₀ t hget₀ hr₀ =>
      by_cases hk : k₀ = k
      · subst hk
        rw [hget] at hget₀
        cases hget₀
        rcases hdec : RetryCoordinator.decide maxRetries r₀ t with a | e | v <;>
          simp only [respondState, hdec] at hget' <;>
          rw [getBucket_setBucket, if_pos rfl] at hget' <;>
          cases hget' <;>
          simp only [applyHeaders_inFlight] at hrnot <;>
          exact ⟨t, by rw [eraseId_eq_of_mem_not_mem hrin hrnot]⟩
      · rcases hdec : RetryCoordinator.decide maxRetries r₀ t with a | e | v <;>
          simp only [respondState, hdec] at hget' <;>
          rw [getBucket_setBucket, if_neg hk, hget] at hget' <;>
          cases hget' <;>
          exact absurd hrin hrnot
    | cancel k₀ b₀ r₀ hget₀ hr₀ =>
      simp only [cancelState] at hget'
      rw [getBucket_setBucket] at hget'
      by_cases hk : k₀ = k
      · rw [if_pos hk] at hget'
        cases hget'
        subst hk
        rw [hget] at hget₀
        cases hget₀
        exact absurd hrin hrnot
      · rw [if_neg hk] at hget'
        rw [hget] at hget'
        cases hget'
        exact absurd hrin hrnot
    | timeout k₀ b₀ r₀ hget₀ hr₀ hdl =>
      simp only [timeoutState] at hget'
      rw [getBucket_setBucket] at hget'
      by_cases hk : k₀ = k
      · rw [if_pos hk] at hget'
        cases hget'
        subst hk
        rw [hget] at hget₀
        cases hget₀
        exact absurd hrin hrnot
      · rw [if_neg hk] at hget'
        rw [hget] at hget'
        cases hget'
        exact absurd hrin hrnot
    | tick t' ht =>
      rw [show ({ s with time := t' } : SysState).buckets = s.buckets from rfl,
        hget] at hget'
      cases hget'
      exact absurd hrin hrnot

/-- C7: a client-error response (4xx other than throttling) fails the request
immediately as ClientError: the retry coordinator decides `fail client`
regardless of the retry counter, and handling such a response settles the
request at once without re-enqueueing it. -/
theorem client_error_fails_immediately {maxRetries : Nat} :
    (∀ (r : PendingRequest) (status limitH remainingH resetAtH ra pl : Nat)
        (g p : Bool),
      400 ≤ status → status < 500 → status ≠ 429 →
      RetryCoordinator.decide maxRetries r
        (TransportResult.http status limitH remainingH resetAtH g ra p pl) =
        Decision.fail ErrKind.client) ∧
    (∀ (s : SysState) (k : BucketKey) (b : BucketState) (r : PendingRequest)
        (status limitH remainingH resetAtH ra pl : Nat) (g p : Bool),
      getBucket k s.buckets = some b → r ∈ b.inFlight →
      400 ≤ status → status < 500 → status ≠ 429 →
      ∃ s', Step maxRetries s
          (Label.respond k r.id
            (TransportResult.http status limitH remainingH resetAtH g ra p pl)) s' ∧
        ∃ b', getBucket k s'.buckets = some b' ∧
          b'.settleLog = b.settleLog ++ [(r.id, Outcome.failure ErrKind.client)] ∧
          b'.queue = b.queue) := by
  have hdecide : ∀ (r : PendingRequest) (status limitH remainingH resetAtH ra pl : Nat)
      (g p : Bool), 400 ≤ status → status < 500 → status ≠ 429 →
      RetryCoordinator.decide maxRetries r
        (TransportResult.http status limitH remainingH resetAtH g ra p pl) =
        Decision.fail ErrKind.client := by
    intro r status limitH remainingH resetAtH ra pl g p h4 h5 h429
    have h5' : ¬500 ≤ status := by omega
    simp [RetryCoordinator.decide, h429, h5', h4]
  refine ⟨hdecide, ?_⟩
  intro s k b r status limitH remainingH resetAtH ra pl g p hget hr h4 h5 h429
  refine ⟨_, Step.respond s k b r _ hget hr, ?_⟩
  simp only [respondState, hdecide r status limitH remainingH resetAtH ra pl g p h4 h5 h429]
  refine ⟨_, getBucket_setBucket_self k _ s.buckets, ?_, ?_⟩
  · simp [applyHeaders_settleLog]
  · simp [applyHeaders_queue]

/-- C8: cancelling a queued request, or its deadline elapsing while queued,
removes it from the queue and settles it (Cancelled or TimedOut) without
mutating the bucket's counters: `remaining`, `resetAt` and `limit` are
unchanged. -/
theorem queued_removal_preserves_counters {maxRetries : Nat} {s : SysState}
    (hReach : Reachable maxRetries s) :
    (∀ s' k i, Step maxRetries s (Label.cancel k i) s' →
      ∀ b b', getBucket k s.buckets = some b → getBucket k s'.buckets = some b' →
        b'.remaining = b.remaining ∧ b'.resetAt = b.resetAt ∧
        b'.limit = b.limit ∧ (i, Outcome.cancelled) ∈ b'.settleLog ∧
        i ∉ reqIds b'.queue) ∧
    (∀ s' k i, Step maxRetries s (Label.timeout k i) s' →
      ∀ b b', getBucket k s.buckets = some b → getBucket k s'.buckets = some b' →
        b'.remaining = b.remaining ∧ b'.resetAt = b.resetAt ∧
        b'.limit = b.limit ∧ (i, Outcome.failure ErrKind.timedOut) ∈ b'.settleLog ∧
        i ∉ reqIds b'.queue) := by
  have hqNodup : ∀ k b, getBucket k s.buckets = some b → (reqIds b.queue).Nodup := by
    intro k b hget
    have hBI := (storeInv_reachable hReach).1 k b hget
    have h := hBI.nodupIds
    simp only [bucketIds, pendIds] at h
    exact (h.of_append_left).of_append_left
  have hout : ∀ k b (r : PendingRequest), getBucket k s.buckets = some b →
      r ∈ b.queue → r.id ∉ reqIds (eraseId r.id b.queue) := by
    intro k b r hget hr
    have hperm := reqIds_perm_eraseId r.id b.queue (List.mem_map.mpr ⟨r, hr, rfl⟩)
    have := (hperm.nodup (hqNodup k b hget))
    exact (List.nodup_cons.mp this).1
  constructor
  · intro s' k i hstep b b' hget hget'
    cases hstep
    rename_i b₀ r₀ hmem hget₀
    rw [hget] at hget₀
    cases hget₀
    simp only [cancelState] at hget'
    rw [getBucket_setBucket_self] at hget'
    cases hget'
    refine ⟨rfl, rfl, rfl, ?_, ?_⟩
    · simp
    · exact hout k b r₀ hget hmem
  · intro s' k i hstep b b' hget hget'
    cases hstep
    rename_i b₀ r₀ hmem hdl hget₀
    rw [hget] at hget₀
    cases hget₀
    simp only [timeoutState] at hget'
    rw [getBucket_setBucket_self] at hget'
    cases hget'
    refine ⟨rfl, rfl, rfl, ?_, ?_⟩
    · simp
    · exact hout k b r₀ hget hmem

/-- C1: within a bucket, the realized order of first dispatches is always an
order-preserving subsequence of the submission order (no reordering, no
priority), and when every submitted request has been dispatched the two orders
are equal. -/
theorem bucket_fifo_order {maxRetries : Nat} {s : SysState}
    (hReach : Reachable maxRetries s) :
    ∀ k b, getBucket k s.buckets = some b →
      (firstOcc b.dispLog).Sublist b.subLog ∧
      ((firstOcc b.dispLog).length = b.subLog.length →
        firstOcc b.dispLog = b.subLog) := by
  intro k b hget
  have hBI := (storeInv_reachable hReach).1 k b hget
  have h₁ : (firstOcc b.dispLog).Sublist b.subLog :=
    (List.sublist_append_left _ _).trans hBI.fifo
  exact ⟨h₁, fun hlen => h₁.eq_of_length hlen⟩

/-- C2: result handles settle exactly once and with exactly one outcome kind:
per bucket the settled ids never repeat, settled ids of distinct buckets never
collide, settlement entries are never removed or altered by any step, every
recorded outcome is exactly one of success / typed failure / cancellation, and
handling any transport result for any in-flight request always transitions —
settling the request with the decided outcome or re-enqueueing it for retry,
never dropping it. -/
theorem settle_exactly_once {maxRetries : Nat} {s : SysState}
    (hReach : Reachable maxRetries s) :
    (∀ k b, getBucket k s.buckets = some b →
      (b.settleLog.map (fun e => e.1)).Nodup) ∧
    (∀ k₁ k₂ b₁ b₂, k₁ ≠ k₂ → getBucket k₁ s.buckets = some b₁ →
      getBucket k₂ s.buckets = some b₂ →
      ∀ i, i ∈ b₁.settleLog.map (fun e => e.1) →
        i ∉ b₂.settleLog.map (fun e => e.1)) ∧
    (∀ l s' k b, Step maxRetries s l s' → getBucket k s.buckets = some b →
      ∃ b' ext, getBucket k s'.buckets = some b' ∧
        b'.settleLog = b.settleLog ++ ext) ∧
    (∀ o : Outcome, (isSuccessOutcome o).toNat + (isFailureOutcome o).toNat +
      (isCancelledOutcome o).toNat = 1) ∧
    (∀ k b r t, getBucket k s.buckets = some b → r ∈ b.inFlight →
      ∃ s' b', Step maxRetries s (Label.respond k r.id t) s' ∧
        getBucket k s'.buckets = some b' ∧
        ((∃ o, settlesOutcome (RetryCoordinator.decide maxRetries r t) = some o ∧
          b'.settleLog = b.settleLog ++ [(r.id, o)]) ∨
         (∃ a, RetryCoordinator.decide maxRetries r t = Decision.retry a ∧
          b'.queue = b.queue ++ [{ r with retryCount := r.retryCount + 1 }] ∧
          b'.settleLog = b.settleLog))) := by
  have hStore := storeInv_reachable hReach
  refine ⟨?_, ?_, ?_, ?_, ?_⟩
  · intro k b hget
    have h := (hStore.1 k b hget).nodupIds
    simp only [bucketIds] at h
    exact h.of_append_right
  · intro k₁ k₂ b₁ b₂ hne hget₁ hget₂ i hi₁ hi₂
    have hBI₁ := hStore.1 k₁ b₁ hget₁
    have hBI₂ := hStore.1 k₂ b₂ hget₂
    have hin₁ : i ∈ b₁.subLog :=
      hBI₁.idsSub i (by simp only [bucketIds, List.mem_append]; exact Or.inr hi₁)
    have hin₂ : i ∈ b₂.subLog :=
      hBI₂.idsSub i (by simp only [bucketIds, List.mem_append]; exact Or.inr hi₂)
    exact hStore.2 k₁ k₂ b₁ b₂ hne hget₁ hget₂ i hin₁ hin₂
  · intro l s' k b hstep hget
    cases hstep with
    | submit k₀ r₀ hrc hfresh =>
      simp only [submitState]
      by_cases hk : k₀ = k
      · subst hk
        refine ⟨_, [], getBucket_setBucket_self k₀ _ s.buckets, ?_⟩
        simp [hget]
      · refine ⟨b, [], ?_, by simp⟩
        rw [getBucket_setBucket, if_neg hk]
        exact hget
    | dispatch k₀ b₀ r₀ rest₀ hget₀ hq hgl hbud hser =>
      simp only [dispatchState]
      by_cases hk : k₀ = k
      · subst hk
        rw [hget] at hget₀
        cases hget₀
        exact ⟨_, [], getBucket_setBucket_self k₀ _ s.buckets, by simp⟩
      · refine ⟨b, [], ?_, by simp⟩
        rw [getBucket_setBucket, if_neg hk]
        exact hget
    | respond k₀ b₀ r₀ t hget₀ hr₀ =>
      rcases hdec : RetryCoordinator.decide maxRetries r₀ t with a | e | v <;>
        simp only [respondState, hdec] <;>
        by_cases hk : k₀ = k
      · subst hk
        rw [hget] at hget₀
        cases hget₀
        exact ⟨_, [], getBucket_setBucket_self k₀ _ s.buckets,
          by simp [applyHeaders_settleLog]⟩
      · refine ⟨b, [], ?_, by simp⟩
        rw [getBucket_setBucket, if_neg hk]
        exact hget
      · subst hk
        rw [hget] at hget₀
        cases hget₀
        exact ⟨_, [(r₀.id, Outcome.failure e)], getBucket_setBucket_self k₀ _ s.buckets,
          by simp [applyHeaders_settleLog]⟩
      · refine ⟨b, [], ?_, by simp⟩
        rw [getBucket_setBucket, if_neg hk]
        exact hget
      · subst hk
        rw [hget] at hget₀
        cases hget₀
        exact ⟨_, [(r₀.id, Outcome.success v)], getBucket_setBucket_self k₀ _ s.buckets,
          by simp [applyHeaders_settleLog]⟩
      · refine ⟨b, [], ?_, by simp⟩
        rw [getBucket_setBucket, if_neg hk]
        exact hget
    | cancel k₀ b₀ r₀ hget₀ hr₀ =>
      simp only [cancelState]
      by_cases hk : k₀ = k
      · subst hk
        rw [hget] at hget₀
        cases hget₀
        exact ⟨_, [(r₀.id, Outcome.cancelled)],
          getBucket_setBucket_self k₀ _ s.buckets, by simp⟩
      · refine ⟨b, [], ?_, by simp⟩
        rw [getBucket_setBucket, if_neg hk]
        exact hget
    | timeout k₀ b₀ r₀ hget₀ hr₀ hdl =>
      simp only [timeoutState]
      by_cases hk : k₀ = k
      · subst hk
        rw [hget] at hget₀
        cases hget₀
        exact ⟨_, [(r₀.id, Outcome.failure ErrKind.timedOut)],
          getBucket_setBucket_self k₀ _ s.buckets, by simp⟩
      · refine ⟨b, [], ?_, by simp⟩
        rw [getBucket_setBucket, if_neg hk]
        exact hget
    | tick t' ht => exact ⟨b, [], hget, by simp⟩
  · intro o
    cases o <;> rfl
  · intro k b r t hget hr
    rcases hdec : RetryCoordinator.decide maxRetries r t with a | e | v
    · refine ⟨respondState maxRetries s k b r t,
        { applyHeaders { b with inFlight := eraseId r.id b.inFlight } t with
          queue :=
            ((applyHeaders { b with inFlight := eraseId r.id b.inFlight } t).queue ++
              [{ r with retryCount := r.retryCount + 1 }]) },
        Step.respond s k b r t hget hr, ?_, ?_⟩
      · simp only [respondState, hdec]
        exact getBucket_setBucket_self k _ s.buckets
      · refine Or.inr ⟨a, rfl, ?_, ?_⟩
        · simp [applyHeaders_queue]
        · simp [applyHeaders_settleLog]
    · refine ⟨respondState maxRetries s k b r t,
        { applyHeaders { b with inFlight := eraseId r.id b.inFlight } t with
          settleLog :=
            ((applyHeaders { b with inFlight := eraseId r.id b.inFlight } t).settleLog ++
              [(r.id, Outcome.failure e)]) },
        Step.respond s k b r t hget hr, ?_, ?_⟩
      · simp only [respondState, hdec]
        exact getBucket_setBucket_self k _ s.buckets
      · refine Or.inl ⟨Outcome.failure e, rfl, ?_⟩
        simp [applyHeaders_settleLog]
    · refine ⟨respondState maxRetries s k b r t,
        { applyHeaders { b with inFlight := eraseId r.id b.inFlight } t with
          settleLog :=
            ((applyHeaders { b with inFlight := eraseId r.id b.inFlight } t).settleLog ++
              [(r.id, Outcome.success v)]) },
        Step.respond s k b r t hget hr, ?_, ?_⟩
      · simp only [respondState, hdec]
        exact getBucket_setBucket_self k _ s.buckets
      · refine Or.inl ⟨Outcome.success v, rfl, ?_⟩
        simp [applyHeaders_settleLog]

theorem exTrace1 : Trace 5 initState [Label.submit kA req1] exState1 := by
  have h := Trace.snoc (@Trace.refl 5 initState)
    (@Step.submit 5 initState kA req1 rfl (by decide))
  rw [show submitState initState kA req1 = exState1 from by decide] at h
  simpa using h

theorem exTrace2 :
    Trace 5 initState [Label.submit kA req1, Label.dispatch kA req1.id]
      exState2 := by
  have h := Trace.snoc exTrace1
    (@Step.dispatch 5 exState1 kA exBucket1 req1 [] (by decide) rfl (by decide)
      (Or.inl (by decide)) (fun _ => rfl))
  rw [show dispatchState exState1 kA exBucket1 req1 [] = exState2 from by decide] at h
  simpa using h

/-- C1 witness: the concrete reachable state after submit and dispatch. -/
theorem bucket_fifo_order_witness :
    (firstOcc exBucket2.dispLog).Sublist exBucket2.subLog ∧
    ((firstOcc exBucket2.dispLog).length = exBucket2.subLog.length →
      firstOcc exBucket2.dispLog = exBucket2.subLog) :=
  bucket_fifo_order ⟨_, exTrace2⟩ kA exBucket2 (by decide)

/-- C2 witness: settlement uniqueness, outcome-kind trichotomy and respond
totality at the concrete reachable state. -/
theorem settle_exactly_once_witness :
    (exBucket2.settleLog.map (fun e => e.1)).Nodup ∧
    (isSuccessOutcome Outcome.cancelled).toNat +
      (isFailureOutcome Outcome.cancelled).toNat +
      (isCancelledOutcome Outcome.cancelled).toNat = 1 ∧
    (∃ s' b', Step 5 exState2 (Label.respond kA req1.id tOK) s' ∧
      getBucket kA s'.buckets = some b' ∧
      ((∃ o, settlesOutcome (RetryCoordinator.decide 5 req1 tOK) = some o ∧
        b'.settleLog = exBucket2.settleLog ++ [(req1.id, o)]) ∨
       (∃ a, RetryCoordinator.decide 5 req1 tOK = Decision.retry a ∧
        b'.queue = exBucket2.queue ++
          [{ req1 with retryCount := req1.retryCount + 1 }] ∧
        b'.settleLog = exBucket2.settleLog))) := by
  have h := settle_exactly_once ⟨_, exTrace2⟩
  exact ⟨h.1 kA exBucket2 (by decide), h.2.2.2.1 Outcome.cancelled,
    h.2.2.2.2 kA exBucket2 req1 tOK (by decide) (by decide)⟩

/-- C3 witness: the concrete exhausted bucket at time 0 with reset at 10. -/
theorem reset_window_respected_witness :
    (exBucket3.remaining = 0 → exState3.time < exBucket3.resetAt →
      ¬∃ i s', Step 5 exState3 (Label.dispatch kA i) s') ∧
    (∀ i s', Step 5 exState3 (Label.dispatch kA i) s' →
      ∃ b', getBucket kA s'.buckets = some b' ∧
        b'.remaining = exBucket3.remaining - 1) :=
  reset_window_respected (by decide)

/-- C4 witness: after the concrete global throttle (wait 7) no bucket can
dispatch at time 0. -/
theorem global_lock_blocks_all_buckets_witness :
    ¬∃ k' i' s₃,
      Step 5 (respondState 5 exState4 kA exBucket4 req1 t429g)
        (Label.dispatch k' i') s₃ :=
  global_lock_blocks_all_buckets
    (Step.respond exState4 kA exBucket4 req1 t429g (by decide) (by decide))
    (by decide) rfl (Trace.refl _) (by decide)

/-- C5 witness: the unknown-limit bucket keeps at most one request in flight,
and the in-flight request leaves only via its own response. -/
theorem unknown_limit_serializes_witness :
    exBucket2.inFlight.length ≤ 1 ∧
    (∃ t, Label.respond kA req1.id tOK = Label.respond kA req1.id t) := by
  have h := unknown_limit_serializes ⟨_, exTrace2⟩
  refine ⟨h.1 kA exBucket2 (by decide) rfl, ?_⟩
  exact h.2.2 (Label.respond kA req1.id tOK)
    (respondState 5 exState2 kA exBucket2 req1 tOK) kA exBucket2 exBucket5 req1
    (Step.respond exState2 kA exBucket2 req1 tOK (by decide) (by decide))
    (by decide) (by decide) (by decide) (by decide)

/-- C7 witness: a concrete 403 response fails as ClientError immediately and
without re-enqueueing. -/
theorem client_error_fails_immediately_witness :
    RetryCoordinator.decide 5 req1 t403 = Decision.fail ErrKind.client ∧
    (∃ s', Step 5 exState2 (Label.respond kA req1.id t403) s' ∧
      ∃ b', getBucket kA s'.buckets = some b' ∧
        b'.settleLog = exBucket2.settleLog ++
          [(req1.id, Outcome.failure ErrKind.client)] ∧
        b'.queue = exBucket2.queue) := by
  refine ⟨?_, ?_⟩
  · exact client_error_fails_immediately.1 req1 403 5 4 60 0 0 false true
      (by decide) (by decide) (by decide)
  · exact client_error_fails_immediately.2 exState2 kA exBucket2 req1
      403 5 4 60 0 0 false true (by decide) (by decide) (by decide) (by decide)
      (by decide)

/-- C8 witness: cancelling / timing out queued `req1` settles it and leaves
the counters untouched. -/
theorem queued_removal_preserves_counters_witness :
    (exBucketC.remaining = exBucket1.remaining ∧
      exBucketC.resetAt = exBucket1.resetAt ∧
      exBucketC.limit = exBucket1.limit ∧
      (req1.id, Outcome.cancelled) ∈ exBucketC.settleLog ∧
      req1.id ∉ reqIds exBucketC.queue) ∧
    (exBucketT.remaining = exBucket1.remaining ∧
      exBucketT.resetAt = exBucket1.resetAt ∧
      exBucketT.limit = exBucket1.limit ∧
      (req1.id, Outcome.failure ErrKind.timedOut) ∈ exBucketT.settleLog ∧
      req1.id ∉ reqIds exBucketT.queue) := by
  have h := queued_removal_preserves_counters ⟨_, exTrace1⟩
  constructor
  · exact h.1 (cancelState exState1 kA exBucket1 req1) kA req1.id
      (Step.cancel exState1 kA exBucket1 req1 (by decide) (by decide))
      exBucket1 exBucketC (by decide) (by decide)
  · exact h.2 (timeoutState exState1 kA exBucket1 req1) kA req1.id
      (Step.timeout exState1 kA exBucket1 req1 (by decide) (by decide) (by decide))
      exBucket1 exBucketT (by decide) (by decide)
